import Mathlib

/-!
Shallow embedding of the `everest` mailbox-synchronization core
(`src/lib/src/lib.rs`): the canonical snapshot data model, the two
snapshot normalizers (from IMAP fetches and from maildir entries), and
the reconciliation engine `build_patch`.

Modelling conventions:
* `HashSet<Flag>` is modelled as `Finset Flag` (membership-only use).
* `HashMap<String, Envelope>` is modelled as an association list with
  no duplicate keys; `insert` overwrites (last-seen-wins), matching
  `HashMap::insert`.  Hash iteration order is unspecified in Rust, so
  the embedding fixes one representative enumeration order; no claim
  depends on cross-id order.
* The `unwrap` calls of `build_patch` are embedded as `Option`: the
  engine returns `none` exactly when a lookup performed after the
  all-four-present guard fails.  Totality is proved, not assumed.
-/

namespace Everest

inductive Flag
  | Draft
  | Flagged
  | Replied
  | Seen
  | Trashed
deriving DecidableEq

abbrev Flags := Finset Flag

structure Envelope where
  id : String
  flags : Flags
deriving DecidableEq

/-- `HashMap<String, Envelope>`: association list, no duplicate keys. -/
abbrev Envelopes := List (String × Envelope)

def Envelopes.find? (m : Envelopes) (id : String) : Option Envelope :=
  (List.find? (fun p => p.1 == id) m).map (fun p => p.2)

def Envelopes.contains_key (m : Envelopes) (id : String) : Bool :=
  (m.find? id).isSome

/-- `HashMap::insert`: overwrites any previous binding of `id`. -/
def Envelopes.insert (m : Envelopes) (id : String) (e : Envelope) : Envelopes :=
  (id, e) :: m.filter (fun p => !(p.1 == id))

def Envelopes.keys (m : Envelopes) : List String :=
  m.map (fun p => p.1)

inductive EverestError
  | MissingImapUidError (seq : Nat)
  | InvalidMaildirEntryError (detail : String)
deriving DecidableEq

/-- `imap::types::Flag` (the protocol flag vocabulary). -/
inductive ImapFlag
  | Seen
  | Answered
  | Flagged
  | Deleted
  | Draft
  | Recent
  | MayCreate
  | Custom (s : String)
deriving DecidableEq

/-- One `imap::types::Fetch` record: sequence number, optional uid, flags. -/
structure Fetch where
  message : Nat
  uid : Option Nat
  flags : List ImapFlag
deriving DecidableEq

/-- The body of the flag fold of `TryFrom<imap::types::Fetches>`. -/
def imap_flag_step (flags : Flags) (flag : ImapFlag) : Flags :=
  match flag with
  | ImapFlag.Seen => insert Flag.Seen flags
  | ImapFlag.Answered => insert Flag.Replied flags
  | ImapFlag.Flagged => insert Flag.Flagged flags
  | ImapFlag.Deleted => insert Flag.Trashed flags
  | ImapFlag.Draft => insert Flag.Draft flags
  | _ => flags

/-- The flag fold of `TryFrom<imap::types::Fetches>`. -/
def imap_flags_to_flags (l : List ImapFlag) : Flags :=
  l.foldl imap_flag_step ∅

/-- One iteration of the `for fetch in fetches` loop. -/
def try_from_fetches_step (envelopes : Envelopes) (fetch : Fetch) :
    Except EverestError Envelopes :=
  match fetch.uid with
  | none => Except.error (EverestError.MissingImapUidError fetch.message)
  | some uid =>
    let id := toString uid
    let flags := imap_flags_to_flags fetch.flags
    Except.ok (envelopes.insert id { id := id, flags := flags })

/-- `TryFrom<imap::types::Fetches> for Envelopes`. -/
def try_from_fetches (fetches : List Fetch) : Except EverestError Envelopes :=
  fetches.foldlM try_from_fetches_step ([] : Envelopes)

/-- One successfully read `maildir::MailEntry`: stable id and flag string. -/
structure MailEntry where
  id : String
  flags : String
deriving DecidableEq

/-- The body of the flag fold of `TryFrom<maildir::MailEntries>`. -/
def maildir_flag_step (flags : Flags) (c : Char) : Flags :=
  match c with
  | 'S' => insert Flag.Seen flags
  | 'R' => insert Flag.Replied flags
  | 'F' => insert Flag.Flagged flags
  | 'T' => insert Flag.Trashed flags
  | 'D' => insert Flag.Draft flags
  | _ => flags

/-- The flag fold of `TryFrom<maildir::MailEntries>`. -/
def maildir_flags_to_flags (s : String) : Flags :=
  s.data.foldl maildir_flag_step ∅

/-- One iteration of the `for entry in entries` loop; each iterator item
may itself be an error (`entry.map_err(...)?`). -/
def try_from_entries_step (envelopes : Envelopes)
    (entry : Except String MailEntry) : Except EverestError Envelopes :=
  match entry with
  | Except.error e =>
    Except.error (EverestError.InvalidMaildirEntryError e)
  | Except.ok entry =>
    let id := entry.id
    let flags := maildir_flags_to_flags entry.flags
    Except.ok (envelopes.insert id { id := id, flags := flags })

/-- `TryFrom<maildir::MailEntries> for Envelopes`. -/
def try_from_entries (entries : List (Except String MailEntry)) :
    Except EverestError Envelopes :=
  entries.foldlM try_from_entries_step ([] : Envelopes)

inductive HunkKind
  | AddMsg (id : String)
  | RemoveMsg (id : String)
  | AddFlag (id : String) (flag : Flag)
  | RemoveFlag (id : String) (flag : Flag)
deriving DecidableEq

inductive Hunk
  | Imap (kind : HunkKind)
  | Maildir (kind : HunkKind)
deriving DecidableEq

abbrev Patch := List Hunk

/-- The fixed flag enumeration order of the `for ref flag in [...]` loop. -/
def flag_order : List Flag :=
  [Flag.Draft, Flag.Flagged, Flag.Replied, Flag.Seen, Flag.Trashed]

/-- The hunks pushed for one `flag` of one id present in all four
snapshots (the body of the inner `for` loop of `build_patch`). -/
def flag_hunks_for_flag (id : String) (imap_envelope imap_cache_envelope
    mdir_envelope mdir_cache_envelope : Envelope) (flag : Flag) : List Hunk :=
  (if flag ∈ imap_envelope.flags ∧ flag ∉ imap_cache_envelope.flags then
    [Hunk.Maildir (HunkKind.AddFlag id flag)]
  else []) ++
  (if flag ∉ imap_envelope.flags ∧ flag ∈ imap_cache_envelope.flags then
    [Hunk.Maildir (HunkKind.RemoveFlag id flag)]
  else []) ++
  (if flag ∉ imap_envelope.flags ∧ flag ∉ imap_cache_envelope.flags ∧
      flag ∈ mdir_envelope.flags ∧ flag ∉ mdir_cache_envelope.flags then
    [Hunk.Imap (HunkKind.AddFlag id flag)]
  else []) ++
  (if flag ∈ imap_envelope.flags ∧ flag ∈ imap_cache_envelope.flags ∧
      flag ∉ mdir_envelope.flags ∧ flag ∈ mdir_cache_envelope.flags then
    [Hunk.Imap (HunkKind.RemoveFlag id flag)]
  else [])

/-- All flag hunks for one id present in all four snapshots (the inner
`for` loop of `build_patch`, iterating `flag_order`). -/
def flag_hunks_for_id (id : String) (imap_envelope imap_cache_envelope
    mdir_envelope mdir_cache_envelope : Envelope) : List Hunk :=
  (flag_order.map
    (flag_hunks_for_flag id imap_envelope imap_cache_envelope
      mdir_envelope mdir_cache_envelope)).flatten

/-- The message-level hunks pushed for one id (the first four guards of
the per-id body of `build_patch`). -/
def msg_hunks_for_id (prev_imap_envelopes next_imap_envelopes
    prev_mdir_envelopes next_mdir_envelopes : Envelopes) (id : String) :
    List Hunk :=
  (if next_imap_envelopes.contains_key id &&
      !prev_imap_envelopes.contains_key id &&
      !next_mdir_envelopes.contains_key id &&
      !prev_mdir_envelopes.contains_key id then
    [Hunk.Maildir (HunkKind.AddMsg id)]
  else []) ++
  (if !next_imap_envelopes.contains_key id &&
      !prev_imap_envelopes.contains_key id &&
      next_mdir_envelopes.contains_key id &&
      !prev_mdir_envelopes.contains_key id then
    [Hunk.Imap (HunkKind.AddMsg id)]
  else []) ++
  (if !next_imap_envelopes.contains_key id &&
      prev_imap_envelopes.contains_key id &&
      next_mdir_envelopes.contains_key id &&
      prev_mdir_envelopes.contains_key id then
    [Hunk.Maildir (HunkKind.RemoveMsg id)]
  else []) ++
  (if next_imap_envelopes.contains_key id &&
      prev_imap_envelopes.contains_key id &&
      !next_mdir_envelopes.contains_key id &&
      prev_mdir_envelopes.contains_key id then
    [Hunk.Imap (HunkKind.RemoveMsg id)]
  else [])

/-- The full per-id body of `build_patch`.  The fifth guard's four
`.get(id).unwrap()` calls are embedded as `Option`: the result is `none`
exactly when one of them would panic. -/
def hunks_for_id (prev_imap_envelopes next_imap_envelopes
    prev_mdir_envelopes next_mdir_envelopes : Envelopes) (id : String) :
    Option (List Hunk) :=
  (if next_imap_envelopes.contains_key id &&
      prev_imap_envelopes.contains_key id &&
      next_mdir_envelopes.contains_key id &&
      prev_mdir_envelopes.contains_key id then
    match next_imap_envelopes.find? id, prev_imap_envelopes.find? id,
        next_mdir_envelopes.find? id, prev_mdir_envelopes.find? id with
    | some imap_envelope, some imap_cache_envelope,
        some mdir_envelope, some mdir_cache_envelope =>
      some (flag_hunks_for_id id imap_envelope imap_cache_envelope
        mdir_envelope mdir_cache_envelope)
    | _, _, _, _ => none
  else some []).map
    (fun flag_hunks =>
      msg_hunks_for_id prev_imap_envelopes next_imap_envelopes
        prev_mdir_envelopes next_mdir_envelopes id ++ flag_hunks)

/-- The id union of `build_patch`: a `HashSet` extended with the keys of
the four maps (order unspecified in Rust; one representative order). -/
def ids_union (prev_imap_envelopes next_imap_envelopes
    prev_mdir_envelopes next_mdir_envelopes : Envelopes) : List String :=
  (next_imap_envelopes.keys ++ prev_imap_envelopes.keys ++
    next_mdir_envelopes.keys ++ prev_mdir_envelopes.keys).dedup

/-- `build_patch`, with the `unwrap` panics embedded as `Option`. -/
def build_patch (prev_imap_envelopes next_imap_envelopes
    prev_mdir_envelopes next_mdir_envelopes : Envelopes) : Option Patch :=
  ((ids_union prev_imap_envelopes next_imap_envelopes
      prev_mdir_envelopes next_mdir_envelopes).mapM
    (hunks_for_id prev_imap_envelopes next_imap_envelopes
      prev_mdir_envelopes next_mdir_envelopes)).map List.flatten

/-- The per-id body with the (provably unreachable) panic branch read as
the empty contribution. -/
def hunks_for_idD (prev_imap_envelopes next_imap_envelopes
    prev_mdir_envelopes next_mdir_envelopes : Envelopes) (id : String) :
    List Hunk :=
  (hunks_for_id prev_imap_envelopes next_imap_envelopes
    prev_mdir_envelopes next_mdir_envelopes id).getD []

/-- The Patch of `build_patch`, as a total function. -/
def the_patch (prev_imap_envelopes next_imap_envelopes
    prev_mdir_envelopes next_mdir_envelopes : Envelopes) : Patch :=
  ((ids_union prev_imap_envelopes next_imap_envelopes
      prev_mdir_envelopes next_mdir_envelopes).map
    (hunks_for_idD prev_imap_envelopes next_imap_envelopes
      prev_mdir_envelopes next_mdir_envelopes)).flatten

/-! Observers on hunks, used to state the per-id invariants. -/

def HunkKind.kind_id : HunkKind → String
  | HunkKind.AddMsg id => id
  | HunkKind.RemoveMsg id => id
  | HunkKind.AddFlag id _ => id
  | HunkKind.RemoveFlag id _ => id

/-- The id a hunk addresses. -/
def Hunk.hunk_id : Hunk → String
  | Hunk.Imap k => k.kind_id
  | Hunk.Maildir k => k.kind_id

def HunkKind.is_msg : HunkKind → Bool
  | HunkKind.AddMsg _ => true
  | HunkKind.RemoveMsg _ => true
  | HunkKind.AddFlag _ _ => false
  | HunkKind.RemoveFlag _ _ => false

/-- Message-level hunk (`AddMsg`/`RemoveMsg`). -/
def Hunk.is_msg : Hunk → Bool
  | Hunk.Imap k => k.is_msg
  | Hunk.Maildir k => k.is_msg

/-- Flag-level hunk (`AddFlag`/`RemoveFlag`). -/
def Hunk.is_flag (h : Hunk) : Bool :=
  !h.is_msg

def HunkKind.flag? : HunkKind → Option Flag
  | HunkKind.AddFlag _ flag => some flag
  | HunkKind.RemoveFlag _ flag => some flag
  | _ => none

/-- The flag a flag-level hunk addresses. -/
def Hunk.flag? : Hunk → Option Flag
  | Hunk.Imap k => k.flag?
  | Hunk.Maildir k => k.flag?

/-- Position of a flag in the fixed enumeration order `flag_order`. -/
def Flag.idx : Flag → Nat
  | Flag.Draft => 0
  | Flag.Flagged => 1
  | Flag.Replied => 2
  | Flag.Seen => 3
  | Flag.Trashed => 4

/-- Position of a flag hunk's flag in `flag_order` (0 on message hunks). -/
def Hunk.flag_idx (h : Hunk) : Nat :=
  (h.flag?.map Flag.idx).getD 0

def is_msg_hunk_for (id : String) (h : Hunk) : Bool :=
  h.is_msg && (h.hunk_id == id)

def is_flag_hunk_for (id : String) (h : Hunk) : Bool :=
  h.is_flag && (h.hunk_id == id)

def is_hunk_for (id : String) (h : Hunk) : Bool :=
  h.hunk_id == id

def is_flag_hunk_for_flag (id : String) (flag : Flag) (h : Hunk) : Bool :=
  (h.hunk_id == id) && (h.flag? == some flag)

/-! Spec-side helpers: the fixed flag tables of §4.1 of the spec, and
the envelope each source record normalizes to; used to compare the
implementation's folds with the spec's wording. -/

/-- The spec's fixed table: seen→Seen, answered→Replied, flagged→Flagged,
deleted→Trashed, draft→Draft; any other protocol flag is dropped. -/
def imap_flag_table : ImapFlag → Option Flag
  | ImapFlag.Seen => some Flag.Seen
  | ImapFlag.Answered => some Flag.Replied
  | ImapFlag.Flagged => some Flag.Flagged
  | ImapFlag.Deleted => some Flag.Trashed
  | ImapFlag.Draft => some Flag.Draft
  | _ => none

/-- The spec's fixed table: S→Seen, R→Replied, F→Flagged, T→Trashed,
D→Draft; any other marker character is dropped. -/
def maildir_flag_table : Char → Option Flag
  | 'S' => some Flag.Seen
  | 'R' => some Flag.Replied
  | 'F' => some Flag.Flagged
  | 'T' => some Flag.Trashed
  | 'D' => some Flag.Draft
  | _ => none

/-- The envelope a fetched record normalizes to (`none` if it has no uid). -/
def fetch_envelope (f : Fetch) : Option Envelope :=
  f.uid.map (fun uid =>
    { id := toString uid, flags := imap_flags_to_flags f.flags })

/-- Does a fetched record carry the (stringified) id `id`? -/
def fetch_has_id (id : String) (f : Fetch) : Bool :=
  f.uid.map toString == some id

/-- The envelope a local entry normalizes to (`none` on a failed entry). -/
def entry_envelope : Except String MailEntry → Option Envelope
  | Except.ok entry =>
    some { id := entry.id, flags := maildir_flags_to_flags entry.flags }
  | Except.error _ => none

/-- Does a (successfully read) local entry carry the id `id`? -/
def entry_has_id (id : String) : Except String MailEntry → Bool
  | Except.ok entry => entry.id == id
  | Except.error _ => false

/-- Is a normalization result an error? -/
def except_is_error {ε α : Type} : Except ε α → Bool
  | Except.error _ => true
  | Except.ok _ => false

/-! Generic helper lemmas. -/

lemma mem_if_singleton {α : Type} {c : Prop} [Decidable c] {a b : α} :
    (a ∈ if c then [b] else []) ↔ c ∧ a = b := by
  split <;> simp_all

/-- Localizing a filter over a flattened map: when the predicate only
accepts elements keyed `a` and each block only holds elements keyed by
its own index, the whole filter collapses to the filter of block `a`. -/
lemma filter_flatten_eq {α β : Type} [DecidableEq α] (f : α → List β)
    (l : List α) (key : β → α) (a : α) (hn : l.Nodup)
    (hf : ∀ i ∈ l, ∀ x ∈ f i, key x = i)
    (p : β → Bool) (hp : ∀ x, p x = true → key x = a) :
    ((l.map f).flatten.filter p) = if a ∈ l then (f a).filter p else [] := by
  induction l with
  | nil => simp
  | cons b t ih =>
    have hbt : b ∉ t := (List.nodup_cons.mp hn).1
    have hnt : t.Nodup := (List.nodup_cons.mp hn).2
    have ihr := ih hnt (fun i hi x hx => hf i (List.mem_cons_of_mem _ hi) x hx)
    simp only [List.map_cons, List.flatten_cons, List.filter_append]
    by_cases hab : b = a
    · subst hab
      rw [ihr, if_neg hbt, if_pos (List.mem_cons_self b t)]
      simp
    · have h0 : (f b).filter p = [] := by
        rw [List.filter_eq_nil_iff]
        intro x hx hpx
        exact hab ((hf b (List.mem_cons_self b t) x hx) ▸ hp x hpx)
      rw [h0, ihr, List.nil_append]
      by_cases hat : a ∈ t
      · rw [if_pos hat, if_pos (List.mem_cons_of_mem _ hat)]
      · rw [if_neg hat, if_neg (fun hmem => ?_)]
        rcases List.mem_cons.mp hmem with h | h
        · exact hab h.symm
        · exact hat h

lemma mapM_option_eq_some {α β : Type} (f : α → Option β) (g : α → β)
    (l : List α) (h : ∀ a ∈ l, f a = some (g a)) :
    l.mapM f = some (l.map g) := by
  induction l with
  | nil => rfl
  | cons a t ih =>
    rw [List.mapM_cons, h a (List.mem_cons_self a t),
      ih (fun x hx => h x (List.mem_cons_of_mem _ hx))]
    rfl

lemma find?_filter_of_imp {α : Type} (l : List α) (p q : α → Bool)
    (h : ∀ x, p x = true → q x = true) :
    (l.filter q).find? p = l.find? p := by
  induction l with
  | nil => rfl
  | cons a t ih =>
    by_cases hq : q a
    · rw [List.filter_cons_of_pos hq]
      cases hp : p a
      · rw [List.find?_cons_of_neg _ (by simp [hp]),
          List.find?_cons_of_neg _ (by simp [hp]), ih]
      · rw [List.find?_cons_of_pos _ hp, List.find?_cons_of_pos _ hp]
    · have hp : p a = false := by
        cases hpa : p a
        · rfl
        · exact absurd (h a hpa) hq
      rw [List.filter_cons_of_neg hq, List.find?_cons_of_neg _ (by simp [hp]), ih]

/-! Lemmas on the association-list model of `HashMap<String, Envelope>`. -/

lemma contains_key_iff {m : Envelopes} {id : String} :
    m.contains_key id = true ↔ ∃ e, m.find? id = some e := by
  simp [Envelopes.contains_key, Option.isSome_iff_exists]

lemma contains_key_of_find? {m : Envelopes} {id : String} {e : Envelope}
    (h : m.find? id = some e) : m.contains_key id = true := by
  simp [Envelopes.contains_key, h]

lemma mem_keys_iff {m : Envelopes} {id : String} :
    id ∈ m.keys ↔ m.contains_key id = true := by
  simp [Envelopes.keys, Envelopes.contains_key, Envelopes.find?,
    List.find?_isSome, beq_iff_eq]

lemma find?_insert_self (m : Envelopes) (id : String) (e : Envelope) :
    (m.insert id e).find? id = some e := by
  simp [Envelopes.insert, Envelopes.find?]

lemma find?_insert_ne (m : Envelopes) (id : String) (e : Envelope)
    (id' : String) (h : id' ≠ id) :
    (m.insert id e).find? id' = m.find? id' := by
  rw [Envelopes.insert, Envelopes.find?, Envelopes.find?,
    List.find?_cons_of_neg _ (by simpa using fun he => h he.symm),
    find?_filter_of_imp]
  intro x hx
  simp only [beq_iff_eq] at hx
  simp [hx, h]

/-! Content of the per-id blocks of `build_patch`. -/

lemma mem_msg_hunks {pim nim pmd nmd : Envelopes} {i : String} {h : Hunk}
    (hm : h ∈ msg_hunks_for_id pim nim pmd nmd i) :
    h.hunk_id = i ∧ h.is_msg = true ∧ h.flag? = none := by
  simp only [msg_hunks_for_id, List.mem_append, mem_if_singleton] at hm
  rcases hm with (((⟨_, rfl⟩ | ⟨_, rfl⟩) | ⟨_, rfl⟩) | ⟨_, rfl⟩) <;>
    exact ⟨rfl, rfl, rfl⟩

lemma mem_flag_hunks_flag {i : String} {ie ice me mce : Envelope}
    {flag : Flag} {h : Hunk}
    (hm : h ∈ flag_hunks_for_flag i ie ice me mce flag) :
    h.hunk_id = i ∧ h.is_msg = false ∧ h.flag? = some flag := by
  simp only [flag_hunks_for_flag, List.mem_append, mem_if_singleton] at hm
  rcases hm with (((⟨_, rfl⟩ | ⟨_, rfl⟩) | ⟨_, rfl⟩) | ⟨_, rfl⟩) <;>
    exact ⟨rfl, rfl, rfl⟩

lemma mem_flag_hunks {i : String} {ie ice me mce : Envelope} {h : Hunk}
    (hm : h ∈ flag_hunks_for_id i ie ice me mce) :
    h.hunk_id = i ∧ h.is_msg = false := by
  simp only [flag_hunks_for_id, List.mem_flatten, List.mem_map] at hm
  obtain ⟨l, ⟨flag, _, rfl⟩, hl⟩ := hm
  exact ⟨(mem_flag_hunks_flag hl).1, (mem_flag_hunks_flag hl).2.1⟩

lemma mem_flag_order (flag : Flag) : flag ∈ flag_order := by
  cases flag <;> decide

lemma flag_order_nodup : flag_order.Nodup := by decide

/-! Shape of the per-id body: the fifth guard's lookups never fail, and
the body collapses to the message guards or to the flag loop. -/

lemma msg_hunks_all_nil {pim nim pmd nmd : Envelopes} {i : String}
    (c1 : nim.contains_key i = true) (c2 : pim.contains_key i = true)
    (c3 : nmd.contains_key i = true) (c4 : pmd.contains_key i = true) :
    msg_hunks_for_id pim nim pmd nmd i = [] := by
  simp [msg_hunks_for_id, c1, c2, c3, c4]

lemma hunks_for_idD_all {pim nim pmd nmd : Envelopes} {i : String}
    {ie ice me mce : Envelope}
    (h1 : nim.find? i = some ie) (h2 : pim.find? i = some ice)
    (h3 : nmd.find? i = some me) (h4 : pmd.find? i = some mce) :
    hunks_for_idD pim nim pmd nmd i = flag_hunks_for_id i ie ice me mce := by
  have c1 := contains_key_of_find? h1
  have c2 := contains_key_of_find? h2
  have c3 := contains_key_of_find? h3
  have c4 := contains_key_of_find? h4
  simp [hunks_for_idD, hunks_for_id, c1, c2, c3, c4, h1, h2, h3, h4,
    msg_hunks_all_nil c1 c2 c3 c4]

lemma hunks_for_idD_not_all {pim nim pmd nmd : Envelopes} {i : String}
    (hc : (nim.contains_key i && pim.contains_key i &&
      nmd.contains_key i && pmd.contains_key i) = false) :
    hunks_for_idD pim nim pmd nmd i = msg_hunks_for_id pim nim pmd nmd i := by
  simp [hunks_for_idD, hunks_for_id, hc]

lemma hunks_for_id_eq_some (pim nim pmd nmd : Envelopes) (i : String) :
    hunks_for_id pim nim pmd nmd i = some (hunks_for_idD pim nim pmd nmd i) := by
  cases hc : (nim.contains_key i && pim.contains_key i &&
      nmd.contains_key i && pmd.contains_key i) with
  | false => simp [hunks_for_id, hunks_for_idD, hc]
  | true =>
    have hc' := hc
    simp only [Bool.and_eq_true] at hc'
    obtain ⟨⟨⟨c1, c2⟩, c3⟩, c4⟩ := hc'
    obtain ⟨ie, h1⟩ := contains_key_iff.mp c1
    obtain ⟨ice, h2⟩ := contains_key_iff.mp c2
    obtain ⟨me, h3⟩ := contains_key_iff.mp c3
    obtain ⟨mce, h4⟩ := contains_key_iff.mp c4
    simp [hunks_for_id, hunks_for_idD, hc, h1, h2, h3, h4]

lemma mem_hunks_for_idD {pim nim pmd nmd : Envelopes} {i : String} {h : Hunk}
    (hm : h ∈ hunks_for_idD pim nim pmd nmd i) : h.hunk_id = i := by
  cases hc : (nim.contains_key i && pim.contains_key i &&
      nmd.contains_key i && pmd.contains_key i) with
  | false =>
    rw [hunks_for_idD_not_all hc] at hm
    exact (mem_msg_hunks hm).1
  | true =>
    simp only [Bool.and_eq_true] at hc
    obtain ⟨⟨⟨c1, c2⟩, c3⟩, c4⟩ := hc
    obtain ⟨ie, h1⟩ := contains_key_iff.mp c1
    obtain ⟨ice, h2⟩ := contains_key_iff.mp c2
    obtain ⟨me, h3⟩ := contains_key_iff.mp c3
    obtain ⟨mce, h4⟩ := contains_key_iff.mp c4
    rw [hunks_for_idD_all h1 h2 h3 h4] at hm
    exact (mem_flag_hunks hm).1

/-! Localization of the whole patch to one id. -/

lemma ids_union_nodup (pim nim pmd nmd : Envelopes) :
    (ids_union pim nim pmd nmd).Nodup :=
  List.nodup_dedup _

lemma mem_ids_union {pim nim pmd nmd : Envelopes} {i : String} :
    i ∈ ids_union pim nim pmd nmd ↔
      (nim.contains_key i || pim.contains_key i ||
        nmd.contains_key i || pmd.contains_key i) = true := by
  simp [ids_union, List.mem_dedup, mem_keys_iff, Bool.or_eq_true, or_assoc]

lemma the_patch_filter (pim nim pmd nmd : Envelopes) (i : String)
    (p : Hunk → Bool) (hp : ∀ h, p h = true → h.hunk_id = i) :
    (the_patch pim nim pmd nmd).filter p =
      if i ∈ ids_union pim nim pmd nmd then
        (hunks_for_idD pim nim pmd nmd i).filter p
      else [] := by
  exact filter_flatten_eq _ _ Hunk.hunk_id i (ids_union_nodup pim nim pmd nmd)
    (fun j _ x hx => mem_hunks_for_idD hx) p hp

lemma mem_the_patch_of {pim nim pmd nmd : Envelopes} {i : String} {h : Hunk}
    (hid : i ∈ ids_union pim nim pmd nmd)
    (hh : h ∈ hunks_for_idD pim nim pmd nmd i) :
    h ∈ the_patch pim nim pmd nmd :=
  List.mem_flatten_of_mem (List.mem_map_of_mem _ hid) hh

lemma mem_the_patch_iff {pim nim pmd nmd : Envelopes} {h : Hunk} :
    h ∈ the_patch pim nim pmd nmd ↔
      h.hunk_id ∈ ids_union pim nim pmd nmd ∧
        h ∈ hunks_for_idD pim nim pmd nmd h.hunk_id := by
  constructor
  · intro hm
    simp only [the_patch, List.mem_flatten, List.mem_map] at hm
    obtain ⟨l, ⟨i, hi, rfl⟩, hl⟩ := hm
    have hkey := mem_hunks_for_idD hl
    rw [hkey]
    exact ⟨hi, hl⟩
  · rintro ⟨hi, hm⟩
    exact mem_the_patch_of hi hm

/-! Guard exclusivity: each per-id (and per-flag) group of guards fires
at most once. -/

lemma msg_hunks_length_le_one (pim nim pmd nmd : Envelopes) (i : String) :
    (msg_hunks_for_id pim nim pmd nmd i).length ≤ 1 := by
  unfold msg_hunks_for_id
  cases h1 : nim.contains_key i <;> cases h2 : pim.contains_key i <;>
    cases h3 : nmd.contains_key i <;> cases h4 : pmd.contains_key i <;> simp

lemma flag_hunks_flag_length_le_one (i : String) (ie ice me mce : Envelope)
    (flag : Flag) :
    (flag_hunks_for_flag i ie ice me mce flag).length ≤ 1 := by
  by_cases h1 : flag ∈ ie.flags <;> by_cases h2 : flag ∈ ice.flags <;>
    by_cases h3 : flag ∈ me.flags <;> by_cases h4 : flag ∈ mce.flags <;>
    simp [flag_hunks_for_flag, h1, h2, h3, h4]

/-! Unchanged snapshots produce empty per-id blocks. -/

lemma flag_hunks_diag_nil (i : String) (e e' : Envelope) :
    flag_hunks_for_id i e e e' e' = [] := by
  simp only [flag_hunks_for_id, List.flatten_eq_nil_iff, List.mem_map]
  rintro l ⟨flag, _, rfl⟩
  by_cases h1 : flag ∈ e.flags <;> by_cases h2 : flag ∈ e'.flags <;>
    simp [flag_hunks_for_flag, h1, h2]

lemma hunks_for_idD_diag_nil (r l : Envelopes) (i : String) :
    hunks_for_idD r r l l i = [] := by
  cases hr : r.find? i with
  | some e =>
    cases hl : l.find? i with
    | some e' =>
      rw [hunks_for_idD_all hr hr hl hl]
      exact flag_hunks_diag_nil i e e'
    | none =>
      have cr := contains_key_of_find? hr
      have cl : l.contains_key i = false := by simp [Envelopes.contains_key, hl]
      rw [hunks_for_idD_not_all (by simp [cr, cl])]
      simp [msg_hunks_for_id, cr, cl]
  | none =>
    have cr : r.contains_key i = false := by simp [Envelopes.contains_key, hr]
    rw [hunks_for_idD_not_all (by simp [cr])]
    cases hl : l.find? i with
    | some e' =>
      have cl := contains_key_of_find? hl
      simp [msg_hunks_for_id, cr, cl]
    | none =>
      have cl : l.contains_key i = false := by simp [Envelopes.contains_key, hl]
      simp [msg_hunks_for_id, cr, cl]

/-- C5: reconciling with `remotePrev = remoteNext = r` and
`localPrev = localNext = l` — nothing changed on either side since the
baseline — returns the empty Patch. -/
theorem spec_C5 (r l : Envelopes) : the_patch r r l l = [] := by
  simp only [the_patch, List.flatten_eq_nil_iff, List.mem_map]
  rintro x ⟨i, _, rfl⟩
  exact hunks_for_idD_diag_nil r l i

theorem spec_C5_witness :
    the_patch [("1", { id := "1", flags := {Flag.Seen} })]
        [("1", { id := "1", flags := {Flag.Seen} })] [] [] = [] :=
  spec_C5 [("1", { id := "1", flags := {Flag.Seen} })] []

/-- C9: the reconciliation engine is total: `build_patch` always returns a
Patch, i.e. the four envelope lookups performed after the all-four-present
guard (embedded as `Option`) never hit the `none` branch, so the Rust
`unwrap` calls are safe. -/
theorem spec_C9 (pim nim pmd nmd : Envelopes) :
    build_patch pim nim pmd nmd = some (the_patch pim nim pmd nmd) := by
  unfold build_patch the_patch
  rw [mapM_option_eq_some _ _ _
    (fun i _ => hunks_for_id_eq_some pim nim pmd nmd i)]
  rfl

theorem spec_C9_witness :
    build_patch [] [("2", { id := "2", flags := ∅ })] [] []
      = some (the_patch [] [("2", { id := "2", flags := ∅ })] [] []) :=
  spec_C9 [] [("2", { id := "2", flags := ∅ })] [] []

/-- C1: per reconciliation and per id, the Patch contains at most one
message-level hunk for that id, and never both a message-level hunk and a
flag hunk for the same id. -/
theorem spec_C1 (pim nim pmd nmd : Envelopes) (i : String) :
    (the_patch pim nim pmd nmd).countP (is_msg_hunk_for i) ≤ 1 ∧
    ((the_patch pim nim pmd nmd).countP (is_msg_hunk_for i) = 0 ∨
      (the_patch pim nim pmd nmd).countP (is_flag_hunk_for i) = 0) := by
  have hpm : ∀ h, is_msg_hunk_for i h = true → h.hunk_id = i := by
    intro h hh
    simp only [is_msg_hunk_for, Bool.and_eq_true, beq_iff_eq] at hh
    exact hh.2
  have hpf : ∀ h, is_flag_hunk_for i h = true → h.hunk_id = i := by
    intro h hh
    simp only [is_flag_hunk_for, Bool.and_eq_true, beq_iff_eq] at hh
    exact hh.2
  rw [List.countP_eq_length_filter, List.countP_eq_length_filter,
    the_patch_filter pim nim pmd nmd i _ hpm,
    the_patch_filter pim nim pmd nmd i _ hpf]
  by_cases hid : i ∈ ids_union pim nim pmd nmd
  · rw [if_pos hid, if_pos hid]
    cases hc : (nim.contains_key i && pim.contains_key i &&
        nmd.contains_key i && pmd.contains_key i) with
    | false =>
      rw [hunks_for_idD_not_all hc]
      refine ⟨le_trans (List.length_filter_le _ _)
        (msg_hunks_length_le_one pim nim pmd nmd i), Or.inr ?_⟩
      rw [List.length_eq_zero, List.filter_eq_nil_iff]
      intro h hm hph
      have hmsg := (mem_msg_hunks hm).2.1
      simp [is_flag_hunk_for, Hunk.is_flag, hmsg] at hph
    | true =>
      simp only [Bool.and_eq_true] at hc
      obtain ⟨⟨⟨c1, c2⟩, c3⟩, c4⟩ := hc
      obtain ⟨ie, h1⟩ := contains_key_iff.mp c1
      obtain ⟨ice, h2⟩ := contains_key_iff.mp c2
      obtain ⟨me, h3⟩ := contains_key_iff.mp c3
      obtain ⟨mce, h4⟩ := contains_key_iff.mp c4
      rw [hunks_for_idD_all h1 h2 h3 h4]
      have hnil :
          (flag_hunks_for_id i ie ice me mce).filter (is_msg_hunk_for i) = [] := by
        rw [List.filter_eq_nil_iff]
        intro h hm hph
        have hflag := (mem_flag_hunks hm).2
        simp [is_msg_hunk_for, hflag] at hph
      rw [hnil]
      exact ⟨by simp, Or.inl rfl⟩
  · rw [if_neg hid, if_neg hid]
    exact ⟨by simp, Or.inl rfl⟩

theorem spec_C1_witness :
    (the_patch [("1", { id := "1", flags := ∅ })] [] [] []).countP
        (is_msg_hunk_for "1") ≤ 1 ∧
    ((the_patch [("1", { id := "1", flags := ∅ })] [] [] []).countP
        (is_msg_hunk_for "1") = 0 ∨
      (the_patch [("1", { id := "1", flags := ∅ })] [] [] []).countP
        (is_flag_hunk_for "1") = 0) :=
  spec_C1 [("1", { id := "1", flags := ∅ })] [] [] [] "1"

/-- C10: per reconciliation, id and flag, the Patch contains at most one
flag hunk mentioning that (id, flag) pair: the four per-flag guards are
pairwise mutually exclusive. -/
theorem spec_C10 (pim nim pmd nmd : Envelopes) (i : String) (flag : Flag) :
    (the_patch pim nim pmd nmd).countP (is_flag_hunk_for_flag i flag) ≤ 1 := by
  have hp : ∀ h, is_flag_hunk_for_flag i flag h = true → h.hunk_id = i := by
    intro h hh
    simp only [is_flag_hunk_for_flag, Bool.and_eq_true, beq_iff_eq] at hh
    exact hh.1
  rw [List.countP_eq_length_filter, the_patch_filter pim nim pmd nmd i _ hp]
  by_cases hid : i ∈ ids_union pim nim pmd nmd
  · rw [if_pos hid]
    cases hc : (nim.contains_key i && pim.contains_key i &&
        nmd.contains_key i && pmd.contains_key i) with
    | false =>
      rw [hunks_for_idD_not_all hc]
      have hnil : (msg_hunks_for_id pim nim pmd nmd i).filter
          (is_flag_hunk_for_flag i flag) = [] := by
        rw [List.filter_eq_nil_iff]
        intro h hm hph
        have hnone := (mem_msg_hunks hm).2.2
        simp [is_flag_hunk_for_flag, hnone] at hph
      rw [hnil]
      simp
    | true =>
      simp only [Bool.and_eq_true] at hc
      obtain ⟨⟨⟨c1, c2⟩, c3⟩, c4⟩ := hc
      obtain ⟨ie, h1⟩ := contains_key_iff.mp c1
      obtain ⟨ice, h2⟩ := contains_key_iff.mp c2
      obtain ⟨me, h3⟩ := contains_key_iff.mp c3
      obtain ⟨mce, h4⟩ := contains_key_iff.mp c4
      rw [hunks_for_idD_all h1 h2 h3 h4, flag_hunks_for_id,
        filter_flatten_eq _ flag_order (fun h => h.flag?.getD Flag.Draft) flag
          flag_order_nodup
          (fun f _ x hx => by simp [(mem_flag_hunks_flag hx).2.2])
          _
          (fun x hx => by
            simp only [is_flag_hunk_for_flag, Bool.and_eq_true, beq_iff_eq] at hx
            simp [hx.2]),
        if_pos (mem_flag_order flag)]
      exact le_trans (List.length_filter_le _ _)
        (flag_hunks_flag_length_le_one i ie ice me mce flag)
  · rw [if_neg hid]
    simp

theorem spec_C10_witness :
    (the_patch [("1", { id := "1", flags := ∅ })] [] [] []).countP
        (is_flag_hunk_for_flag "1" Flag.Seen) ≤ 1 :=
  spec_C10 [("1", { id := "1", flags := ∅ })] [] [] [] "1" Flag.Seen

/-- C2: for an id present in all four snapshots, a remote flag change
always propagates to the local side, regardless of the local state for
that flag: remote gained → `Maildir AddFlag` (Local.SetFlag), remote
lost → `Maildir RemoveFlag` (Local.ClearFlag). -/
theorem spec_C2 (pim nim pmd nmd : Envelopes) (i : String) (flag : Flag)
    (ie ice me mce : Envelope)
    (h1 : Envelopes.find? nim i = some ie)
    (h2 : Envelopes.find? pim i = some ice)
    (h3 : Envelopes.find? nmd i = some me)
    (h4 : Envelopes.find? pmd i = some mce) :
    (flag ∈ ie.flags → flag ∉ ice.flags →
      Hunk.Maildir (HunkKind.AddFlag i flag) ∈ the_patch pim nim pmd nmd) ∧
    (flag ∉ ie.flags → flag ∈ ice.flags →
      Hunk.Maildir (HunkKind.RemoveFlag i flag) ∈ the_patch pim nim pmd nmd) := by
  have hid : i ∈ ids_union pim nim pmd nmd := by
    rw [mem_ids_union]
    simp [contains_key_of_find? h1]
  have hblock := hunks_for_idD_all h1 h2 h3 h4
  constructor
  · intro ha hb
    apply mem_the_patch_of hid
    rw [hblock, flag_hunks_for_id]
    apply List.mem_flatten_of_mem (List.mem_map_of_mem _ (mem_flag_order flag))
    simp [flag_hunks_for_flag, ha, hb]
  · intro ha hb
    apply mem_the_patch_of hid
    rw [hblock, flag_hunks_for_id]
    apply List.mem_flatten_of_mem (List.mem_map_of_mem _ (mem_flag_order flag))
    simp [flag_hunks_for_flag, ha, hb]

theorem spec_C2_witness :
    Hunk.Maildir (HunkKind.AddFlag "1" Flag.Seen) ∈
      the_patch [("1", { id := "1", flags := ∅ })]
        [("1", { id := "1", flags := {Flag.Seen} })]
        [("1", { id := "1", flags := ∅ })]
        [("1", { id := "1", flags := ∅ })] :=
  (spec_C2 [("1", { id := "1", flags := ∅ })]
    [("1", { id := "1", flags := {Flag.Seen} })]
    [("1", { id := "1", flags := ∅ })]
    [("1", { id := "1", flags := ∅ })] "1" Flag.Seen
    { id := "1", flags := {Flag.Seen} } { id := "1", flags := ∅ }
    { id := "1", flags := ∅ } { id := "1", flags := ∅ }
    (by decide) (by decide) (by decide) (by decide)).1
    (by decide) (by decide)

/-- C3 counterexample: the claim says a local-only flag gain is emitted as
`Remote.SetFlag` whenever remote is unchanged for the flag, including when
the flag is present in both remote snapshots.  On the code, with id "1"
carrying Flagged in remotePrev and remoteNext, absent in localPrev and
gained in localNext, the Patch is empty: the `Imap AddFlag` guard also
requires the flag to be absent on the remote side. -/
theorem spec_C3_counterexample :
    Envelopes.find? [("1", { id := "1", flags := {Flag.Flagged} })] "1"
        = some { id := "1", flags := {Flag.Flagged} } ∧
    Envelopes.find? [("1", { id := "1", flags := (∅ : Flags) })] "1"
        = some { id := "1", flags := (∅ : Flags) } ∧
    Flag.Flagged ∈ ({Flag.Flagged} : Flags) ∧
    Flag.Flagged ∉ (∅ : Flags) ∧
    the_patch [("1", { id := "1", flags := {Flag.Flagged} })]
        [("1", { id := "1", flags := {Flag.Flagged} })]
        [("1", { id := "1", flags := (∅ : Flags) })]
        [("1", { id := "1", flags := {Flag.Flagged} })] = [] ∧
    Hunk.Imap (HunkKind.AddFlag "1" Flag.Flagged) ∉
      the_patch [("1", { id := "1", flags := {Flag.Flagged} })]
        [("1", { id := "1", flags := {Flag.Flagged} })]
        [("1", { id := "1", flags := (∅ : Flags) })]
        [("1", { id := "1", flags := {Flag.Flagged} })] := by
  decide

/-- C3 (amended): for an id present in all four snapshots, a local-only
flag gain is emitted as `Imap AddFlag` (Remote.SetFlag) only when the flag
is absent in both remote snapshots, and a local-only flag loss is emitted
as `Imap RemoveFlag` (Remote.ClearFlag) only when the flag is present in
both remote snapshots. -/
theorem spec_C3 (pim nim pmd nmd : Envelopes) (i : String) (flag : Flag)
    (ie ice me mce : Envelope)
    (h1 : Envelopes.find? nim i = some ie)
    (h2 : Envelopes.find? pim i = some ice)
    (h3 : Envelopes.find? nmd i = some me)
    (h4 : Envelopes.find? pmd i = some mce) :
    (flag ∉ ie.flags → flag ∉ ice.flags → flag ∈ me.flags →
      flag ∉ mce.flags →
      Hunk.Imap (HunkKind.AddFlag i flag) ∈ the_patch pim nim pmd nmd) ∧
    (flag ∈ ie.flags → flag ∈ ice.flags → flag ∉ me.flags →
      flag ∈ mce.flags →
      Hunk.Imap (HunkKind.RemoveFlag i flag) ∈ the_patch pim nim pmd nmd) := by
  have hid : i ∈ ids_union pim nim pmd nmd := by
    rw [mem_ids_union]
    simp [contains_key_of_find? h1]
  have hblock := hunks_for_idD_all h1 h2 h3 h4
  constructor
  · intro ha hb hc hd
    apply mem_the_patch_of hid
    rw [hblock, flag_hunks_for_id]
    apply List.mem_flatten_of_mem (List.mem_map_of_mem _ (mem_flag_order flag))
    simp [flag_hunks_for_flag, ha, hb, hc, hd]
  · intro ha hb hc hd
    apply mem_the_patch_of hid
    rw [hblock, flag_hunks_for_id]
    apply List.mem_flatten_of_mem (List.mem_map_of_mem _ (mem_flag_order flag))
    simp [flag_hunks_for_flag, ha, hb, hc, hd]

theorem spec_C3_witness :
    Hunk.Imap (HunkKind.AddFlag "1" Flag.Flagged) ∈
      the_patch [("1", { id := "1", flags := ∅ })]
        [("1", { id := "1", flags := ∅ })]
        [("1", { id := "1", flags := ∅ })]
        [("1", { id := "1", flags := {Flag.Flagged} })] :=
  (spec_C3 [("1", { id := "1", flags := ∅ })]
    [("1", { id := "1", flags := ∅ })]
    [("1", { id := "1", flags := ∅ })]
    [("1", { id := "1", flags := {Flag.Flagged} })] "1" Flag.Flagged
    { id := "1", flags := ∅ } { id := "1", flags := ∅ }
    { id := "1", flags := {Flag.Flagged} } { id := "1", flags := ∅ }
    (by decide) (by decide) (by decide) (by decide)).1
    (by decide) (by decide) (by decide) (by decide)

/-- C8: within one Patch the flag hunks of a single id form one
contiguous group, ordered by the fixed flag enumeration Draft, Flagged,
Replied, Seen, Trashed: a hunk for a later flag never precedes a hunk for
an earlier flag of the same id. -/
theorem spec_C8 (pim nim pmd nmd : Envelopes) (i : String) :
    ∃ pre post,
      the_patch pim nim pmd nmd =
        pre ++ (the_patch pim nim pmd nmd).filter (is_flag_hunk_for i) ++ post ∧
      List.Pairwise (fun a b : Hunk => a.flag_idx ≤ b.flag_idx)
        ((the_patch pim nim pmd nmd).filter (is_flag_hunk_for i)) := by
  have hpf : ∀ h, is_flag_hunk_for i h = true → h.hunk_id = i := by
    intro h hh
    simp only [is_flag_hunk_for, Bool.and_eq_true, beq_iff_eq] at hh
    exact hh.2
  have hfil := the_patch_filter pim nim pmd nmd i _ hpf
  by_cases hid : i ∈ ids_union pim nim pmd nmd
  · rw [if_pos hid] at hfil
    cases hc : (nim.contains_key i && pim.contains_key i &&
        nmd.contains_key i && pmd.contains_key i) with
    | false =>
      rw [hunks_for_idD_not_all hc] at hfil
      have hempty : (the_patch pim nim pmd nmd).filter (is_flag_hunk_for i)
          = [] := by
        rw [hfil, List.filter_eq_nil_iff]
        intro h hm hph
        have hmsg := (mem_msg_hunks hm).2.1
        simp [is_flag_hunk_for, Hunk.is_flag, hmsg] at hph
      exact ⟨the_patch pim nim pmd nmd, [], by simp [hempty],
        by rw [hempty]; exact List.Pairwise.nil⟩
    | true =>
      simp only [Bool.and_eq_true] at hc
      obtain ⟨⟨⟨c1, c2⟩, c3⟩, c4⟩ := hc
      obtain ⟨ie, h1⟩ := contains_key_iff.mp c1
      obtain ⟨ice, h2⟩ := contains_key_iff.mp c2
      obtain ⟨me, h3⟩ := contains_key_iff.mp c3
      obtain ⟨mce, h4⟩ := contains_key_iff.mp c4
      rw [hunks_for_idD_all h1 h2 h3 h4] at hfil
      have hfull : (flag_hunks_for_id i ie ice me mce).filter
          (is_flag_hunk_for i) = flag_hunks_for_id i ie ice me mce := by
        rw [List.filter_eq_self]
        intro h hm
        obtain ⟨hki, hfl⟩ := mem_flag_hunks hm
        simp [is_flag_hunk_for, Hunk.is_flag, hki, hfl]
      have hpatchfil : (the_patch pim nim pmd nmd).filter (is_flag_hunk_for i)
          = flag_hunks_for_id i ie ice me mce := hfil.trans hfull
      obtain ⟨s, t, hst⟩ := List.append_of_mem hid
      refine ⟨(s.map (hunks_for_idD pim nim pmd nmd)).flatten,
        (t.map (hunks_for_idD pim nim pmd nmd)).flatten, ?_, ?_⟩
      · rw [hpatchfil]
        conv_lhs => rw [the_patch, hst]
        rw [List.map_append, List.map_cons, List.flatten_append,
          List.flatten_cons, hunks_for_idD_all h1 h2 h3 h4]
        simp [List.append_assoc]
      · rw [hpatchfil, flag_hunks_for_id, List.pairwise_flatten]
        constructor
        · rintro l hl
          simp only [List.mem_map] at hl
          obtain ⟨f, _, rfl⟩ := hl
          apply List.pairwise_of_forall_mem_list
          intro a ha b hb
          have hfa := (mem_flag_hunks_flag ha).2.2
          have hfb := (mem_flag_hunks_flag hb).2.2
          simp [Hunk.flag_idx, hfa, hfb]
        · rw [List.pairwise_map]
          have hbase : List.Pairwise (fun f1 f2 : Flag => f1.idx ≤ f2.idx)
              flag_order := by decide
          refine hbase.imp ?_
          intro f1 f2 hle x hx y hy
          have hfx := (mem_flag_hunks_flag hx).2.2
          have hfy := (mem_flag_hunks_flag hy).2.2
          simpa [Hunk.flag_idx, hfx, hfy] using hle
  · rw [if_neg hid] at hfil
    exact ⟨the_patch pim nim pmd nmd, [], by simp [hfil],
      by rw [hfil]; exact List.Pairwise.nil⟩

theorem spec_C8_witness :
    ∃ pre post,
      the_patch [("1", { id := "1", flags := ∅ })]
          [("1", { id := "1", flags := {Flag.Seen} })]
          [("1", { id := "1", flags := ∅ })]
          [("1", { id := "1", flags := ∅ })] =
        pre ++ (the_patch [("1", { id := "1", flags := ∅ })]
          [("1", { id := "1", flags := {Flag.Seen} })]
          [("1", { id := "1", flags := ∅ })]
          [("1", { id := "1", flags := ∅ })]).filter (is_flag_hunk_for "1")
          ++ post ∧
      List.Pairwise (fun a b : Hunk => a.flag_idx ≤ b.flag_idx)
        ((the_patch [("1", { id := "1", flags := ∅ })]
          [("1", { id := "1", flags := {Flag.Seen} })]
          [("1", { id := "1", flags := ∅ })]
          [("1", { id := "1", flags := ∅ })]).filter (is_flag_hunk_for "1")) :=
  spec_C8 [("1", { id := "1", flags := ∅ })]
    [("1", { id := "1", flags := {Flag.Seen} })]
    [("1", { id := "1", flags := ∅ })]
    [("1", { id := "1", flags := ∅ })] "1"

lemma mem_ids_union_of_msg_hunk {pim nim pmd nmd : Envelopes} {i : String}
    {h : Hunk} (hm : h ∈ msg_hunks_for_id pim nim pmd nmd i) :
    i ∈ ids_union pim nim pmd nmd := by
  rw [mem_ids_union]
  simp only [msg_hunks_for_id, List.mem_append, mem_if_singleton] at hm
  rcases hm with (((⟨hc, _⟩ | ⟨hc, _⟩) | ⟨hc, _⟩) | ⟨hc, _⟩) <;>
    (simp only [Bool.and_eq_true, Bool.not_eq_true'] at hc ;
      simp [hc.1.1.1, hc.1.1.2, hc.1.2, hc.2])

lemma not_all_present_of_msg_hunk {pim nim pmd nmd : Envelopes} {i : String}
    {h : Hunk} (hm : h ∈ msg_hunks_for_id pim nim pmd nmd i) :
    (nim.contains_key i && pim.contains_key i &&
      nmd.contains_key i && pmd.contains_key i) = false := by
  simp only [msg_hunks_for_id, List.mem_append, mem_if_singleton] at hm
  rcases hm with (((⟨hc, _⟩ | ⟨hc, _⟩) | ⟨hc, _⟩) | ⟨hc, _⟩) <;>
    (simp only [Bool.and_eq_true, Bool.not_eq_true'] at hc ;
      simp [hc.1.1.1, hc.1.1.2, hc.1.2, hc.2])

/-- A message-level hunk is in the patch exactly when it is among the
message guards' hunks of its own id. -/
lemma msg_hunk_mem_patch_iff {pim nim pmd nmd : Envelopes} {i : String}
    {h : Hunk} (hkey : h.hunk_id = i) (hmsg : h.is_msg = true) :
    h ∈ the_patch pim nim pmd nmd ↔
      h ∈ msg_hunks_for_id pim nim pmd nmd i := by
  rw [mem_the_patch_iff, hkey]
  constructor
  · rintro ⟨hil, hm⟩
    cases hc : (nim.contains_key i && pim.contains_key i &&
        nmd.contains_key i && pmd.contains_key i) with
    | false => rwa [hunks_for_idD_not_all hc] at hm
    | true =>
      simp only [Bool.and_eq_true] at hc
      obtain ⟨⟨⟨c1, c2⟩, c3⟩, c4⟩ := hc
      obtain ⟨ie, h1⟩ := contains_key_iff.mp c1
      obtain ⟨ice, h2⟩ := contains_key_iff.mp c2
      obtain ⟨me, h3⟩ := contains_key_iff.mp c3
      obtain ⟨mce, h4⟩ := contains_key_iff.mp c4
      rw [hunks_for_idD_all h1 h2 h3 h4] at hm
      have hfl := (mem_flag_hunks hm).2
      rw [hmsg] at hfl
      cases hfl
  · intro hm
    exact ⟨mem_ids_union_of_msg_hunk hm, by
      rw [hunks_for_idD_not_all (not_all_present_of_msg_hunk hm)]
      exact hm⟩

lemma msg_hunks_nil_of_guards_false {pim nim pmd nmd : Envelopes}
    {i : String}
    (g1 : (nim.contains_key i && !pim.contains_key i &&
      !nmd.contains_key i && !pmd.contains_key i) = false)
    (g2 : (!nim.contains_key i && !pim.contains_key i &&
      nmd.contains_key i && !pmd.contains_key i) = false)
    (g3 : (!nim.contains_key i && pim.contains_key i &&
      nmd.contains_key i && pmd.contains_key i) = false)
    (g4 : (nim.contains_key i && pim.contains_key i &&
      !nmd.contains_key i && pmd.contains_key i) = false) :
    msg_hunks_for_id pim nim pmd nmd i = [] := by
  simp [msg_hunks_for_id, g1, g2, g3, g4]

/-- C4: an id receives a message-level hunk exactly under the four
presence patterns of §4.2 (and then exactly the specified hunk); any
presence combination satisfying none of the five guards yields no hunk at
all for that id. -/
theorem spec_C4 (pim nim pmd nmd : Envelopes) (i : String) :
    (Hunk.Maildir (HunkKind.AddMsg i) ∈ the_patch pim nim pmd nmd ↔
      (nim.contains_key i && !pim.contains_key i &&
        !nmd.contains_key i && !pmd.contains_key i) = true) ∧
    (Hunk.Imap (HunkKind.AddMsg i) ∈ the_patch pim nim pmd nmd ↔
      (!nim.contains_key i && !pim.contains_key i &&
        nmd.contains_key i && !pmd.contains_key i) = true) ∧
    (Hunk.Maildir (HunkKind.RemoveMsg i) ∈ the_patch pim nim pmd nmd ↔
      (!nim.contains_key i && pim.contains_key i &&
        nmd.contains_key i && pmd.contains_key i) = true) ∧
    (Hunk.Imap (HunkKind.RemoveMsg i) ∈ the_patch pim nim pmd nmd ↔
      (nim.contains_key i && pim.contains_key i &&
        !nmd.contains_key i && pmd.contains_key i) = true) ∧
    ((nim.contains_key i && !pim.contains_key i &&
        !nmd.contains_key i && !pmd.contains_key i) = false →
      (!nim.contains_key i && !pim.contains_key i &&
        nmd.contains_key i && !pmd.contains_key i) = false →
      (!nim.contains_key i && pim.contains_key i &&
        nmd.contains_key i && pmd.contains_key i) = false →
      (nim.contains_key i && pim.contains_key i &&
        !nmd.contains_key i && pmd.contains_key i) = false →
      (nim.contains_key i && pim.contains_key i &&
        nmd.contains_key i && pmd.contains_key i) = false →
      (the_patch pim nim pmd nmd).countP (is_hunk_for i) = 0) := by
  refine ⟨?_, ?_, ?_, ?_, ?_⟩
  · rw [@msg_hunk_mem_patch_iff pim nim pmd nmd i
      (Hunk.Maildir (HunkKind.AddMsg i)) rfl rfl]
    simp only [msg_hunks_for_id, List.mem_append, mem_if_singleton]
    constructor
    · rintro (((⟨hc, _⟩ | ⟨_, he⟩) | ⟨_, he⟩) | ⟨_, he⟩)
      · exact hc
      all_goals simp at he
    · intro hc
      exact Or.inl (Or.inl (Or.inl ⟨hc, trivial⟩))
  · rw [@msg_hunk_mem_patch_iff pim nim pmd nmd i
      (Hunk.Imap (HunkKind.AddMsg i)) rfl rfl]
    simp only [msg_hunks_for_id, List.mem_append, mem_if_singleton]
    constructor
    · rintro (((⟨_, he⟩ | ⟨hc, _⟩) | ⟨_, he⟩) | ⟨_, he⟩)
      · simp at he
      · exact hc
      all_goals simp at he
    · intro hc
      exact Or.inl (Or.inl (Or.inr ⟨hc, trivial⟩))
  · rw [@msg_hunk_mem_patch_iff pim nim pmd nmd i
      (Hunk.Maildir (HunkKind.RemoveMsg i)) rfl rfl]
    simp only [msg_hunks_for_id, List.mem_append, mem_if_singleton]
    constructor
    · rintro (((⟨_, he⟩ | ⟨_, he⟩) | ⟨hc, _⟩) | ⟨_, he⟩)
      · simp at he
      · simp at he
      · exact hc
      · simp at he
    · intro hc
      exact Or.inl (Or.inr ⟨hc, trivial⟩)
  · rw [@msg_hunk_mem_patch_iff pim nim pmd nmd i
      (Hunk.Imap (HunkKind.RemoveMsg i)) rfl rfl]
    simp only [msg_hunks_for_id, List.mem_append, mem_if_singleton]
    constructor
    · rintro (((⟨_, he⟩ | ⟨_, he⟩) | ⟨_, he⟩) | ⟨hc, _⟩)
      · simp at he
      · simp at he
      · simp at he
      · exact hc
    · intro hc
      exact Or.inr ⟨hc, trivial⟩
  · intro g1 g2 g3 g4 g5
    have hp : ∀ h, is_hunk_for i h = true → h.hunk_id = i := by
      intro h hh
      simpa [is_hunk_for] using hh
    rw [List.countP_eq_length_filter, the_patch_filter pim nim pmd nmd i _ hp]
    by_cases hid : i ∈ ids_union pim nim pmd nmd
    · rw [if_pos hid, hunks_for_idD_not_all g5,
        msg_hunks_nil_of_guards_false g1 g2 g3 g4]
      rfl
    · rw [if_neg hid]
      rfl

theorem spec_C4_witness :
    (Hunk.Maildir (HunkKind.AddMsg "2") ∈
        the_patch [] [("2", { id := "2", flags := ∅ })] [] [] ↔
      (Envelopes.contains_key [("2", { id := "2", flags := ∅ })] "2" &&
        !Envelopes.contains_key [] "2" && !Envelopes.contains_key [] "2" &&
        !Envelopes.contains_key [] "2") = true) ∧
    (Hunk.Imap (HunkKind.AddMsg "2") ∈
        the_patch [] [("2", { id := "2", flags := ∅ })] [] [] ↔
      (!Envelopes.contains_key [("2", { id := "2", flags := ∅ })] "2" &&
        !Envelopes.contains_key [] "2" && Envelopes.contains_key [] "2" &&
        !Envelopes.contains_key [] "2") = true) ∧
    (Hunk.Maildir (HunkKind.RemoveMsg "2") ∈
        the_patch [] [("2", { id := "2", flags := ∅ })] [] [] ↔
      (!Envelopes.contains_key [("2", { id := "2", flags := ∅ })] "2" &&
        Envelopes.contains_key [] "2" && Envelopes.contains_key [] "2" &&
        Envelopes.contains_key [] "2") = true) ∧
    (Hunk.Imap (HunkKind.RemoveMsg "2") ∈
        the_patch [] [("2", { id := "2", flags := ∅ })] [] [] ↔
      (Envelopes.contains_key [("2", { id := "2", flags := ∅ })] "2" &&
        Envelopes.contains_key [] "2" && !Envelopes.contains_key [] "2" &&
        Envelopes.contains_key [] "2") = true) ∧
    ((Envelopes.contains_key [("2", { id := "2", flags := ∅ })] "2" &&
        !Envelopes.contains_key [] "2" && !Envelopes.contains_key [] "2" &&
        !Envelopes.contains_key [] "2") = false →
      (!Envelopes.contains_key [("2", { id := "2", flags := ∅ })] "2" &&
        !Envelopes.contains_key [] "2" && Envelopes.contains_key [] "2" &&
        !Envelopes.contains_key [] "2") = false →
      (!Envelopes.contains_key [("2", { id := "2", flags := ∅ })] "2" &&
        Envelopes.contains_key [] "2" && Envelopes.contains_key [] "2" &&
        Envelopes.contains_key [] "2") = false →
      (Envelopes.contains_key [("2", { id := "2", flags := ∅ })] "2" &&
        Envelopes.contains_key [] "2" && !Envelopes.contains_key [] "2" &&
        Envelopes.contains_key [] "2") = false →
      (Envelopes.contains_key [("2", { id := "2", flags := ∅ })] "2" &&
        Envelopes.contains_key [] "2" && Envelopes.contains_key [] "2" &&
        Envelopes.contains_key [] "2") = false →
      (the_patch [] [("2", { id := "2", flags := ∅ })] [] []).countP
        (is_hunk_for "2") = 0) :=
  spec_C4 [] [("2", { id := "2", flags := ∅ })] [] [] "2"

/-! Error behaviour of the two normalizers. -/

lemma fetches_fold_error_iff (fetches : List Fetch) : ∀ acc : Envelopes,
    except_is_error (fetches.foldlM try_from_fetches_step acc) = true ↔
      ∃ f ∈ fetches, f.uid = none := by
  induction fetches with
  | nil =>
    intro acc
    simp [List.foldlM_nil, except_is_error, Pure.pure, Except.pure]
  | cons f t ih =>
    intro acc
    rw [List.foldlM_cons]
    cases hf : f.uid with
    | none =>
      simp only [try_from_fetches_step, hf, Bind.bind, Except.bind,
        except_is_error]
      constructor
      · intro _
        exact ⟨f, List.mem_cons_self f t, hf⟩
      · intro _
        trivial
    | some u =>
      simp only [try_from_fetches_step, hf, Bind.bind, Except.bind]
      rw [ih]
      constructor
      · rintro ⟨g, hg, hgu⟩
        exact ⟨g, List.mem_cons_of_mem _ hg, hgu⟩
      · rintro ⟨g, hg, hgu⟩
        rcases List.mem_cons.mp hg with he | he
        · rw [he, hf] at hgu
          cases hgu
        · exact ⟨g, he, hgu⟩

lemma fetches_fold_error_val (fetches : List Fetch) :
    ∀ (acc : Envelopes) (err : EverestError),
      fetches.foldlM try_from_fetches_step acc = Except.error err →
        ∃ f ∈ fetches, f.uid = none ∧
          err = EverestError.MissingImapUidError f.message := by
  induction fetches with
  | nil =>
    intro acc err h
    simp [List.foldlM_nil, Pure.pure, Except.pure] at h
  | cons f t ih =>
    intro acc err h
    rw [List.foldlM_cons] at h
    cases hf : f.uid with
    | none =>
      simp only [try_from_fetches_step, hf, Bind.bind, Except.bind,
        Except.error.injEq] at h
      exact ⟨f, List.mem_cons_self f t, hf, h.symm⟩
    | some u =>
      simp only [try_from_fetches_step, hf, Bind.bind, Except.bind] at h
      obtain ⟨g, hg, hgu, hge⟩ := ih _ err h
      exact ⟨g, List.mem_cons_of_mem _ hg, hgu, hge⟩

lemma entries_fold_error_iff (entries : List (Except String MailEntry)) :
    ∀ acc : Envelopes,
      except_is_error (entries.foldlM try_from_entries_step acc) = true ↔
        ∃ d, Except.error d ∈ entries := by
  induction entries with
  | nil =>
    intro acc
    simp [List.foldlM_nil, except_is_error, Pure.pure, Except.pure]
  | cons entry t ih =>
    intro acc
    rw [List.foldlM_cons]
    cases entry with
    | error e =>
      simp only [try_from_entries_step, Bind.bind, Except.bind,
        except_is_error]
      constructor
      · intro _
        exact ⟨e, List.mem_cons_self _ _⟩
      · intro _
        trivial
    | ok en =>
      simp only [try_from_entries_step, Bind.bind, Except.bind]
      rw [ih]
      constructor
      · rintro ⟨d, hd⟩
        exact ⟨d, List.mem_cons_of_mem _ hd⟩
      · rintro ⟨d, hd⟩
        rcases List.mem_cons.mp hd with he | he
        · simp at he
        · exact ⟨d, he⟩

lemma entries_fold_error_val (entries : List (Except String MailEntry)) :
    ∀ (acc : Envelopes) (err : EverestError),
      entries.foldlM try_from_entries_step acc = Except.error err →
        ∃ d, Except.error d ∈ entries ∧
          err = EverestError.InvalidMaildirEntryError d := by
  induction entries with
  | nil =>
    intro acc err h
    simp [List.foldlM_nil, Pure.pure, Except.pure] at h
  | cons entry t ih =>
    intro acc err h
    rw [List.foldlM_cons] at h
    cases entry with
    | error e =>
      simp only [try_from_entries_step, Bind.bind, Except.bind,
        Except.error.injEq] at h
      exact ⟨e, List.mem_cons_self _ _, h.symm⟩
    | ok en =>
      simp only [try_from_entries_step, Bind.bind, Except.bind] at h
      obtain ⟨d, hd, hde⟩ := ih _ err h
      exact ⟨d, List.mem_cons_of_mem _ hd, hde⟩

/-- C6: remote normalization fails exactly when some fetched record has
no uid, with `MissingImapUidError` carrying that record's sequence
number; local normalization fails exactly when some entry is itself an
error, with `InvalidMaildirEntryError` carrying the detail.  Both return
`Except`, so an error case produces no snapshot at all. -/
theorem spec_C6 (fetches : List Fetch)
    (entries : List (Except String MailEntry)) :
    (except_is_error (try_from_fetches fetches) = true ↔
      ∃ f ∈ fetches, f.uid = none) ∧
    (∀ err, try_from_fetches fetches = Except.error err →
      ∃ f ∈ fetches, f.uid = none ∧
        err = EverestError.MissingImapUidError f.message) ∧
    (except_is_error (try_from_entries entries) = true ↔
      ∃ d, Except.error d ∈ entries) ∧
    (∀ err, try_from_entries entries = Except.error err →
      ∃ d, Except.error d ∈ entries ∧
        err = EverestError.InvalidMaildirEntryError d) :=
  ⟨fetches_fold_error_iff fetches [],
    fun err => fetches_fold_error_val fetches [] err,
    entries_fold_error_iff entries [],
    fun err => entries_fold_error_val entries [] err⟩

theorem spec_C6_witness :
    (except_is_error (try_from_fetches [{ message := 7, uid := none, flags := [] }]) = true ↔
      ∃ f ∈ [({ message := 7, uid := none, flags := [] } : Fetch)],
        f.uid = none) ∧
    (∀ err, try_from_fetches [{ message := 7, uid := none, flags := [] }]
        = Except.error err →
      ∃ f ∈ [({ message := 7, uid := none, flags := [] } : Fetch)],
        f.uid = none ∧ err = EverestError.MissingImapUidError f.message) ∧
    (except_is_error (try_from_entries [Except.error "bad"]) = true ↔
      ∃ d, Except.error d ∈ [(Except.error "bad" :
        Except String MailEntry)]) ∧
    (∀ err, try_from_entries [Except.error "bad"] = Except.error err →
      ∃ d, Except.error d ∈ [(Except.error "bad" :
        Except String MailEntry)] ∧
        err = EverestError.InvalidMaildirEntryError d) :=
  spec_C6 [{ message := 7, uid := none, flags := [] }] [Except.error "bad"]

/-! Success behaviour of the two normalizers: flag mapping as the image
of the fixed tables, and last-seen-wins insertion. -/

lemma imap_step_table (acc : Flags) (flag : ImapFlag) :
    imap_flag_step acc flag =
      (match imap_flag_table flag with
        | some g => insert g acc
        | none => acc) := by
  cases flag <;> rfl

lemma maildir_step_table (acc : Flags) (c : Char) :
    maildir_flag_step acc c =
      (match maildir_flag_table c with
        | some g => insert g acc
        | none => acc) := by
  unfold maildir_flag_step maildir_flag_table
  split <;> rfl

lemma imap_fold_union (l : List ImapFlag) : ∀ acc : Flags,
    l.foldl imap_flag_step acc = acc ∪ (l.filterMap imap_flag_table).toFinset := by
  induction l with
  | nil =>
    intro acc
    simp
  | cons x t ih =>
    intro acc
    rw [List.foldl_cons, ih, List.filterMap_cons, imap_step_table]
    cases hx : imap_flag_table x with
    | none => rfl
    | some g =>
      rw [List.toFinset_cons, Finset.insert_union, Finset.union_insert]

lemma maildir_fold_union (l : List Char) : ∀ acc : Flags,
    l.foldl maildir_flag_step acc =
      acc ∪ (l.filterMap maildir_flag_table).toFinset := by
  induction l with
  | nil =>
    intro acc
    simp
  | cons x t ih =>
    intro acc
    rw [List.foldl_cons, ih, List.filterMap_cons, maildir_step_table]
    cases hx : maildir_flag_table x with
    | none => rfl
    | some g =>
      rw [List.toFinset_cons, Finset.insert_union, Finset.union_insert]

lemma fetches_fold_ok (fetches : List Fetch) :
    ∀ (acc m : Envelopes),
      fetches.foldlM try_from_fetches_step acc = Except.ok m →
      ∀ id, m.find? id =
        ((fetches.reverse.find? (fetch_has_id id)).bind fetch_envelope).or
          (acc.find? id) := by
  induction fetches with
  | nil =>
    intro acc m hm id
    simp only [List.foldlM_nil, Pure.pure, Except.pure, Except.ok.injEq] at hm
    subst hm
    simp
  | cons f t ih =>
    intro acc m hm id
    rw [List.foldlM_cons] at hm
    cases hf : f.uid with
    | none =>
      simp [try_from_fetches_step, hf, Bind.bind, Except.bind] at hm
    | some u =>
      simp only [try_from_fetches_step, hf, Bind.bind, Except.bind] at hm
      have ihm := ih _ m hm id
      rw [ihm, List.reverse_cons, List.find?_append]
      cases hq : t.reverse.find? (fetch_has_id id) with
      | some g =>
        have hg := List.find?_some hq
        simp only [fetch_has_id, beq_iff_eq] at hg
        obtain ⟨w, hw⟩ : ∃ w, g.uid = some w := by
          cases hgu : g.uid
          · rw [hgu] at hg
            cases hg
          · exact ⟨_, rfl⟩
        simp [fetch_envelope, hw]
      | none =>
        simp only [Option.none_bind, Option.none_or]
        cases hqf : fetch_has_id id f with
        | true =>
          have hid : toString u = id := by
            simpa [fetch_has_id, hf] using hqf
          rw [List.find?_cons_of_pos _ hqf, ← hid, find?_insert_self]
          simp [fetch_envelope, hf]
        | false =>
          have hne : id ≠ toString u := by
            simp only [fetch_has_id, hf, Option.map_some, beq_iff_eq] at hqf
            exact fun h => by simp [h] at hqf
          rw [List.find?_cons_of_neg _ (by simp [hqf]),
            find?_insert_ne _ _ _ _ hne]
          simp

lemma entries_fold_ok (entries : List (Except String MailEntry)) :
    ∀ (acc m : Envelopes),
      entries.foldlM try_from_entries_step acc = Except.ok m →
      ∀ id, m.find? id =
        ((entries.reverse.find? (entry_has_id id)).bind entry_envelope).or
          (acc.find? id) := by
  induction entries with
  | nil =>
    intro acc m hm id
    simp only [List.foldlM_nil, Pure.pure, Except.pure, Except.ok.injEq] at hm
    subst hm
    simp
  | cons entry t ih =>
    intro acc m hm id
    rw [List.foldlM_cons] at hm
    cases entry with
    | error e =>
      simp [try_from_entries_step, Bind.bind, Except.bind] at hm
    | ok en =>
      simp only [try_from_entries_step, Bind.bind, Except.bind] at hm
      have ihm := ih _ m hm id
      rw [ihm, List.reverse_cons, List.find?_append]
      cases hq : t.reverse.find? (entry_has_id id) with
      | some g =>
        have hg := List.find?_some hq
        cases g with
        | error e =>
          simp [entry_has_id] at hg
        | ok gen =>
          simp [entry_envelope]
      | none =>
        simp only [Option.none_bind, Option.none_or]
        cases hqf : entry_has_id id (Except.ok en) with
        | true =>
          have hid : en.id = id := by
            simpa [entry_has_id] using hqf
          rw [List.find?_cons_of_pos _ hqf, ← hid, find?_insert_self]
          simp [entry_envelope]
        | false =>
          have hne : id ≠ en.id := by
            simp only [entry_has_id, beq_iff_eq] at hqf
            exact fun h => by simp [h] at hqf
          rw [List.find?_cons_of_neg _ (by simp [hqf]),
            find?_insert_ne _ _ _ _ hne]
          simp

/-- C7: on success each normalizer maps a record's source flags to
exactly the image under the fixed table (all other source flags dropped),
and the produced snapshot maps each id to the envelope of the last source
record carrying that id (last-seen-wins), keyed by the stringified uid
(remote) resp. the entry id (local). -/
theorem spec_C7 :
    (∀ l, imap_flags_to_flags l = (l.filterMap imap_flag_table).toFinset) ∧
    (∀ s, maildir_flags_to_flags s =
      (s.data.filterMap maildir_flag_table).toFinset) ∧
    (∀ fetches m, try_from_fetches fetches = Except.ok m →
      ∀ id, Envelopes.find? m id =
        (fetches.reverse.find? (fetch_has_id id)).bind fetch_envelope) ∧
    (∀ entries m, try_from_entries entries = Except.ok m →
      ∀ id, Envelopes.find? m id =
        (entries.reverse.find? (entry_has_id id)).bind entry_envelope) := by
  refine ⟨?_, ?_, ?_, ?_⟩
  · intro l
    rw [imap_flags_to_flags, imap_fold_union]
    simp
  · intro s
    rw [maildir_flags_to_flags, maildir_fold_union]
    simp
  · intro fetches m hm id
    have h := fetches_fold_ok fetches [] m hm id
    rwa [show Envelopes.find? [] id = none from rfl, Option.or_none] at h
  · intro entries m hm id
    have h := entries_fold_ok entries [] m hm id
    rwa [show Envelopes.find? [] id = none from rfl, Option.or_none] at h

theorem spec_C7_witness :
    Envelopes.find? [("3", { id := "3", flags := {Flag.Seen} })] "3" =
      (([({ message := 1, uid := some 3, flags := [ImapFlag.Seen] } :
        Fetch)]).reverse.find? (fetch_has_id "3")).bind fetch_envelope :=
  spec_C7.2.2.1 [{ message := 1, uid := some 3, flags := [ImapFlag.Seen] }]
    [("3", { id := "3", flags := {Flag.Seen} })] rfl "3"

end Everest
